import Mathlib

/-!
Verification development for the `balance-mon` service
(`packages/chain-mon/src/balance-mon/service.ts`).

The service is embedded shallowly:

* `JsValue` models dynamically-typed JavaScript/JSON values; the parsed
  `accounts` configuration and the `safe` field of an account live there,
  because `JSON.parse` performs no shape validation.
* `jsonParse` models the platform builtin `JSON.parse` (restricted to
  integer numerals and without unicode escape sequences, which the service
  configuration never needs).
* `Rpc` is the external RPC capability (`getBalance` and `call`); its
  behaviour is an arbitrary parameter of every theorem.
* One tick of `BalanceMonService.main` is embedded as a pure function
  producing the ordered list of observable `Event`s (RPC invocations,
  gauge writes, counter increments); `applyEvents` folds those events into
  a `Metrics` state.
* `parseInt(x.toString(), 10)` on a nonnegative BigNumber is embedded
  exactly over `Nat` (`jsParseIntD` composed with `bnToString`); the IEEE
  double rounding that real JavaScript applies above 2^53 is not modelled.
-/

set_option autoImplicit false

/-- A dynamically typed JavaScript value, as produced by `JSON.parse`
(plus `undefined` for the value of a missing property). -/
inductive JsValue where
  | undefined
  | null
  | bool (b : Bool)
  | num (n : Int)
  | str (s : String)
  | arr (elems : List JsValue)
  | obj (fields : List (String × JsValue))

/-- JavaScript truthiness, as used by `if (account.safe)` in the service.
`NaN` is not modelled (numbers are integers here). -/
def truthy : JsValue → Bool
  | .undefined => false
  | .null => false
  | .bool b => b
  | .num n => n != 0
  | .str s => s != ""
  | .arr _ => true
  | .obj _ => true

/-- JavaScript property access on a parsed object: the field's value, or
`undefined` when the field is absent or the value is not an object. -/
def JsValue.getField : JsValue → String → JsValue
  | .obj fields, k =>
    match fields.find? (fun kv => kv.1 == k) with
    | some kv => kv.2
    | none => .undefined
  | _, _ => .undefined

/-- Whether a JavaScript value is `undefined`. -/
def JsValue.isUndefined : JsValue → Bool
  | .undefined => true
  | _ => false

/-! ### Decimal printing and `parseInt`

`BigNumber.toString()` prints the canonical decimal numeral; the service
then applies `parseInt(·, 10)`.  Both are embedded over `Nat`. -/

/-- The decimal digit character for `d < 10`. -/
def digitChar (d : Nat) : Char := Char.ofNat (48 + d)

/-- Big-endian decimal digit characters of `n`; `fuel` bounds the
recursion and any `fuel > n` is enough. -/
def decDigitsAux : Nat → Nat → List Char
  | 0, _ => []
  | fuel + 1, n =>
    if n < 10 then [digitChar n] else decDigitsAux fuel (n / 10) ++ [digitChar (n % 10)]

/-- `BigNumber.prototype.toString(10)` for a nonnegative value: the
canonical decimal numeral. -/
def bnToString (n : Nat) : String := String.mk (decDigitsAux (n + 1) n)

/-- Accumulating value of a run of decimal digit characters, as read
left to right by `parseInt`. -/
def parseDigitsAcc (acc : Nat) (cs : List Char) : Nat :=
  cs.foldl (fun a c => a * 10 + (c.toNat - 48)) acc

/-- `parseInt(s, 10)` for a string that begins with a decimal digit (the
only shape the service ever passes in: a `BigNumber.toString()` result):
the value of the maximal digit run at the front of the string. -/
def jsParseIntD (s : String) : Nat :=
  parseDigitsAcc 0 (s.toList.takeWhile Char.isDigit)

/-! ### `BigNumber.from` on strings -/

/-- Value of one hexadecimal digit character, or `none`. -/
def hexDigitVal (c : Char) : Option Nat :=
  if 48 ≤ c.toNat ∧ c.toNat ≤ 57 then some (c.toNat - 48)
  else if 97 ≤ c.toNat ∧ c.toNat ≤ 102 then some (c.toNat - 87)
  else if 65 ≤ c.toNat ∧ c.toNat ≤ 70 then some (c.toNat - 55)
  else none

/-- Big-endian value of a run of hexadecimal digit characters;
`none` as soon as one character is not a hexadecimal digit. -/
def parseHexAcc (acc : Nat) : List Char → Option Nat
  | [] => some acc
  | c :: cs =>
    match hexDigitVal c with
    | some d => parseHexAcc (acc * 16 + d) cs
    | none => none

/-- All-or-nothing decimal read of a whole nonempty character list. -/
def parseDecAll : List Char → Option Nat
  | [] => none
  | cs =>
    if cs.all Char.isDigit then some (parseDigitsAcc 0 cs) else none

/-- `ethers.BigNumber.from` on the strings the service can feed it: a
`0x`-prefixed hexadecimal numeral (the shape of every `eth_call` result)
is read big-endian, a plain decimal numeral is read as such, anything
else throws (`none`).  Negative numerals are not modelled. -/
def bigNumberFrom (s : String) : Option Nat :=
  match s.toList with
  | '0' :: 'x' :: rest => parseHexAcc 0 rest
  | _ => parseDecAll s.toList

/-! ### `JSON.parse`

A model of the platform builtin used by `BalanceMonService.init`.  It
covers the JSON the service configuration needs: objects, arrays,
strings (with the single-character escapes), booleans, `null` and
integer numerals.  Fractional or exponent numerals and `\u` escapes are
outside the model. -/

/-- The double-quote character. -/
def quoteChar : Char := Char.ofNat 34

/-- The backslash character. -/
def backslashChar : Char := Char.ofNat 92

/-- The opening-brace character. -/
def lbraceChar : Char := Char.ofNat 123

/-- The closing-brace character. -/
def rbraceChar : Char := Char.ofNat 125

/-- JSON whitespace. -/
def isJsonWs (c : Char) : Bool :=
  c = Char.ofNat 32 ∨ c = Char.ofNat 9 ∨ c = Char.ofNat 10 ∨ c = Char.ofNat 13

/-- Drop leading JSON whitespace. -/
def skipWs (cs : List Char) : List Char := cs.dropWhile isJsonWs

/-- Value of a single-character string escape. -/
def escChar (c : Char) : Char :=
  if c = 'n' then Char.ofNat 10
  else if c = 't' then Char.ofNat 9
  else if c = 'r' then Char.ofNat 13
  else if c = 'b' then Char.ofNat 8
  else if c = 'f' then Char.ofNat 12
  else c

/-- Body of a JSON string after the opening quote: the decoded
characters and the rest of the input after the closing quote.  The
`Bool` records a pending backslash. -/
def strBody : Bool → List Char → Option (List Char × List Char)
  | _, [] => none
  | true, c :: rest => (strBody false rest).map (fun p => (escChar c :: p.1, p.2))
  | false, c :: rest =>
    if c = quoteChar then some ([], rest)
    else if c = backslashChar then strBody true rest
    else (strBody false rest).map (fun p => (c :: p.1, p.2))

/-- An integer JSON numeral at the front of the input. -/
def parseNum (cs : List Char) : Option (JsValue × List Char) :=
  match cs with
  | [] => none
  | c :: rest =>
    if c = '-' then
      match rest.span Char.isDigit with
      | ([], _) => none
      | (ds, r) => some (.num (-(Int.ofNat (parseDigitsAcc 0 ds))), r)
    else
      match cs.span Char.isDigit with
      | ([], _) => none
      | (ds, r) => some (.num (Int.ofNat (parseDigitsAcc 0 ds)), r)

mutual

/-- A JSON value at the front of the input; `fuel` bounds the nesting
and any `fuel` above the input length is enough. -/
def parseVal : Nat → List Char → Option (JsValue × List Char)
  | 0, _ => none
  | fuel + 1, cs =>
    match skipWs cs with
    | [] => none
    | c :: rest =>
      if c = lbraceChar then parseObjItems fuel rest
      else if c = '[' then parseArrItems fuel rest
      else if c = quoteChar then
        match strBody false rest with
        | some (s, r) => some (.str (String.mk s), r)
        | none => none
      else if c = 't' then
        match rest with
        | 'r' :: 'u' :: 'e' :: r => some (.bool true, r)
        | _ => none
      else if c = 'f' then
        match rest with
        | 'a' :: 'l' :: 's' :: 'e' :: r => some (.bool false, r)
        | _ => none
      else if c = 'n' then
        match rest with
        | 'u' :: 'l' :: 'l' :: r => some (.null, r)
        | _ => none
      else parseNum (c :: rest)

/-- The items of a JSON array, the opening bracket already consumed. -/
def parseArrItems : Nat → List Char → Option (JsValue × List Char)
  | 0, _ => none
  | fuel + 1, cs =>
    match skipWs cs with
    | c :: rest =>
      if c = ']' then some (.arr [], rest)
      else
        match parseVal fuel (c :: rest) with
        | some (v, r) =>
          match parseArrTail fuel r with
          | some (vs, r2) => some (.arr (v :: vs), r2)
          | none => none
        | none => none
    | [] => none

/-- The remaining items of a JSON array after a complete item. -/
def parseArrTail : Nat → List Char → Option (List JsValue × List Char)
  | 0, _ => none
  | fuel + 1, cs =>
    match skipWs cs with
    | c :: rest =>
      if c = ']' then some ([], rest)
      else if c = ',' then
        match parseVal fuel rest with
        | some (v, r) =>
          match parseArrTail fuel r with
          | some (vs, r2) => some (v :: vs, r2)
          | none => none
        | none => none
      else none
    | [] => none

/-- The members of a JSON object, the opening brace already consumed. -/
def parseObjItems : Nat → List Char → Option (JsValue × List Char)
  | 0, _ => none
  | fuel + 1, cs =>
    match skipWs cs with
    | c :: rest =>
      if c = rbraceChar then some (.obj [], rest)
      else
        match parseMember fuel (c :: rest) with
        | some (kv, r) =>
          match parseObjTail fuel r with
          | some (kvs, r2) => some (.obj (kv :: kvs), r2)
          | none => none
        | none => none
    | [] => none

/-- The remaining members of a JSON object after a complete member. -/
def parseObjTail : Nat → List Char → Option (List (String × JsValue) × List Char)
  | 0, _ => none
  | fuel + 1, cs =>
    match skipWs cs with
    | c :: rest =>
      if c = rbraceChar then some ([], rest)
      else if c = ',' then
        match parseMember fuel rest with
        | some (kv, r) =>
          match parseObjTail fuel r with
          | some (kvs, r2) => some (kv :: kvs, r2)
          | none => none
        | none => none
      else none
    | [] => none

/-- One `key : value` member of a JSON object. -/
def parseMember : Nat → List Char → Option ((String × JsValue) × List Char)
  | 0, _ => none
  | fuel + 1, cs =>
    match skipWs cs with
    | c :: rest =>
      if c = quoteChar then
        match strBody false rest with
        | some (k, r) =>
          match skipWs r with
          | c2 :: r2 =>
            if c2 = ':' then
              match parseVal fuel r2 with
              | some (v, r3) => some ((String.mk k, v), r3)
              | none => none
            else none
          | [] => none
        | none => none
      else none
    | [] => none

end

/-- `JSON.parse`: the whole input must be one JSON value surrounded by
whitespace; a syntax error is `none` (a thrown `SyntaxError`). -/
def jsonParse (s : String) : Option JsValue :=
  match parseVal (s.length + 1) s.toList with
  | some (v, rest) => if skipWs rest = [] then some v else none
  | none => none

/-! ### The service -/

/-- One monitored account as the tick uses it: the `address` and
`nickname` strings and the raw `safe` field.  `safe` is kept as a
`JsValue` because `init` performs no validation, so any JSON value (or
`undefined`, for a missing field) can sit there. -/
structure Account where
  address : String
  nickname : String
  safe : JsValue

/-- The RPC capability: `getBalance` yields a nonnegative `BigNumber`
(wei) or throws; `call` yields the returned data as a string (an
`eth_call` result is a `0x`-prefixed hexadecimal string) or throws. -/
structure Rpc where
  getBalance : String → Except Unit Nat
  call : String → String → Except Unit String

/-- Whether an RPC operation succeeded. -/
def rpcOk {α : Type} : Except Unit α → Bool
  | .ok _ => true
  | .error _ => false

/-- One observable action of a tick, in execution order. -/
inductive Event where
  | rpcGetBalance (address : String)
  | rpcCall (target : String) (data : String)
  | balanceSet (address : String) (nickname : String) (value : Nat)
  | nonceSet (address : String) (nickname : String) (value : Nat)
  | errInc (sect : String) (opName : String)
  deriving DecidableEq

/-- The `nonce()` function selector the service hard-codes. -/
def nonceSelector : String := "0xaffed0e0"

/-- The balance step of `BalanceMonService.main` for one account: the
`try` block reads the balance and writes the gauge labelled by the
account's address and nickname; the `catch` block increments the error
counter labelled `balances` / `getBalance`. -/
def balanceStep (rpc : Rpc) (a : Account) : List Event :=
  match rpc.getBalance a.address with
  | .ok b =>
    [.rpcGetBalance a.address,
     .balanceSet a.address a.nickname (jsParseIntD (bnToString b))]
  | .error _ =>
    [.rpcGetBalance a.address, .errInc "balances" "getBalance"]

/-- The safe-nonce step of `BalanceMonService.main` for one account,
guarded by `if (account.safe)`: the `try` block calls the contract with
the fixed selector, converts the returned data with `BigNumber.from`
and writes the nonce gauge; any failure (the call throwing or
`BigNumber.from` throwing on malformed data) increments the error
counter labelled `safeNonce` / `getSafeNonce`. -/
def nonceStep (rpc : Rpc) (a : Account) : List Event :=
  if truthy a.safe then
    .rpcCall a.address nonceSelector ::
      (match rpc.call a.address nonceSelector with
       | .ok s =>
         match bigNumberFrom s with
         | some n => [.nonceSet a.address a.nickname (jsParseIntD (bnToString n))]
         | none => [.errInc "safeNonce" "getSafeNonce"]
       | .error _ => [.errInc "safeNonce" "getSafeNonce"])
  else []

/-- The whole loop body of `BalanceMonService.main` for one account. -/
def processAccount (rpc : Rpc) (a : Account) : List Event :=
  balanceStep rpc a ++ nonceStep rpc a

/-- The events of one tick over an account list, in order. -/
def tickEvents (rpc : Rpc) : List Account → List Event
  | [] => []
  | a :: rest => processAccount rpc a ++ tickEvents rpc rest

/-- The mutable service state: just the parsed account list. -/
structure ServiceState where
  accounts : List Account

namespace BalanceMonService

/-- `BalanceMonService.init`: `this.state.accounts =
JSON.parse(this.options.accounts)`.  The only failure is a `SyntaxError`
from `JSON.parse`; no shape validation happens. -/
def init (accountsOption : String) : Except Unit JsValue :=
  match jsonParse accountsOption with
  | some v => .ok v
  | none => .error ()

/-- Whether `init` completes without throwing. -/
def initOk (accountsOption : String) : Bool :=
  match init accountsOption with
  | .ok _ => true
  | .error _ => false

/-- The recursion of `BalanceMonService.main` over the account list,
threading the service state (which the loop body never assigns). -/
def mainGo (rpc : Rpc) : List Account → ServiceState → ServiceState × List Event
  | [], s => (s, [])
  | a :: rest, s =>
    let r := mainGo rpc rest s
    (r.1, processAccount rpc a ++ r.2)

/-- One tick of `BalanceMonService.main`: iterate `state.accounts` in
order, returning the final state and the events. -/
def main (rpc : Rpc) (s : ServiceState) : ServiceState × List Event :=
  mainGo rpc s.accounts s

end BalanceMonService

/-! ### The metrics sink -/

/-- The three metrics of the service, keyed by their label values. -/
structure Metrics where
  balances : String → String → Option Nat
  safeNonces : String → String → Option Nat
  unexpectedRpcErrors : String → String → Nat

/-- Apply one event to the metrics state: gauge writes overwrite the
labelled series, counter increments add one to the labelled series, and
RPC invocations touch nothing. -/
def applyEvent (m : Metrics) : Event → Metrics
  | .rpcGetBalance _ => m
  | .rpcCall _ _ => m
  | .balanceSet addr nick v =>
    { m with balances := fun x y => if x = addr ∧ y = nick then some v else m.balances x y }
  | .nonceSet addr nick v =>
    { m with safeNonces := fun x y => if x = addr ∧ y = nick then some v else m.safeNonces x y }
  | .errInc sect opName =>
    { m with unexpectedRpcErrors := fun x y =>
        if x = sect ∧ y = opName then m.unexpectedRpcErrors x y + 1
        else m.unexpectedRpcErrors x y }

/-- Apply a list of events in order. -/
def applyEvents (m : Metrics) (evs : List Event) : Metrics :=
  evs.foldl applyEvent m

/-! ### Event and configuration predicates -/

/-- A balance-gauge write labelled with the account's address and
nickname. -/
def isBalanceWriteFor (a : Account) : Event → Bool
  | .balanceSet addr nick _ => addr == a.address && nick == a.nickname
  | _ => false

/-- An error-counter increment labelled `balances` / `getBalance`. -/
def isBalanceErrEvent : Event → Bool
  | .errInc sect opName => sect == "balances" && opName == "getBalance"
  | _ => false

/-- Any contract-call invocation. -/
def isCallEvent : Event → Bool
  | .rpcCall _ _ => true
  | _ => false

/-- A contract-call invocation targeting the account's address with
exactly the nonce selector as call data. -/
def isNonceCallFor (a : Account) : Event → Bool
  | .rpcCall t d => t == a.address && d == nonceSelector
  | _ => false

/-- A nonce-gauge write labelled with the account's address and
nickname. -/
def isNonceWriteFor (a : Account) : Event → Bool
  | .nonceSet addr nick _ => addr == a.address && nick == a.nickname
  | _ => false

/-- An error-counter increment labelled `safeNonce` / `getSafeNonce`. -/
def isNonceErrEvent : Event → Bool
  | .errInc sect opName => sect == "safeNonce" && opName == "getSafeNonce"
  | _ => false

/-- Whether the whole nonce fetch (the contract call and the
`BigNumber.from` conversion) succeeds. -/
def nonceFetchOk (rpc : Rpc) (a : Account) : Bool :=
  match rpc.call a.address nonceSelector with
  | .ok s => (bigNumberFrom s).isSome
  | .error _ => false

/-- Spec-side notion (section 4.2): an account record carrying all three
required fields. -/
def accountRecordComplete (v : JsValue) : Bool :=
  !(v.getField "address").isUndefined &&
    !(v.getField "nickname").isUndefined &&
    !(v.getField "safe").isUndefined

/-- Spec-side notion (section 4.2): a malformed accounts configuration
value — not an array, or an array with a record missing a required
field. -/
def accountsConfigMalformed (v : JsValue) : Bool :=
  match v with
  | .arr xs => xs.any (fun r => !accountRecordComplete r)
  | _ => true

/-! ### Concrete model inputs

Closed `Rpc` behaviours, accounts and an empty metrics state used to
instantiate the theorems on concrete data. -/

/-- The empty metrics state: no gauge series, all counters at zero. -/
def mZero : Metrics :=
  { balances := fun _ _ => none
    safeNonces := fun _ _ => none
    unexpectedRpcErrors := fun _ _ => 0 }

/-- A safe-flagged account. -/
def accBob : Account := { address := "0xBB", nickname := "bob", safe := JsValue.bool true }

/-- An account not flagged as safe. -/
def accAlice : Account := { address := "0xAA", nickname := "alice", safe := JsValue.bool false }

/-- A second account not flagged as safe. -/
def accCarol : Account := { address := "0xCC", nickname := "carol", safe := JsValue.bool false }

/-- An RPC behaviour where every operation succeeds. -/
def rpcNonceOk : Rpc :=
  { getBalance := fun _ => .ok 0, call := fun _ _ => .ok "0x05" }

/-- An RPC behaviour where every balance read throws and every contract
call returns `0x05`. -/
def rpcBalFail : Rpc :=
  { getBalance := fun _ => .error (), call := fun _ _ => .ok "0x05" }

/-- An RPC behaviour where every operation throws. -/
def rpcAllFail : Rpc :=
  { getBalance := fun _ => .error (), call := fun _ _ => .error () }

/-- An RPC behaviour returning a balance of 10^18 wei and a throwing
contract call. -/
def rpcBal18 : Rpc :=
  { getBalance := fun _ => .ok 1000000000000000000, call := fun _ _ => .error () }

/-! ### Round-trip facts for `parseInt ∘ toString` -/

theorem parseDigitsAcc_append (xs ys : List Char) (acc : Nat) :
    parseDigitsAcc acc (xs ++ ys) = parseDigitsAcc (parseDigitsAcc acc xs) ys := by
  simp [parseDigitsAcc, List.foldl_append]

theorem digitChar_toNat (d : Nat) (hd : d < 10) : (digitChar d).toNat = 48 + d := by
  interval_cases d <;> decide

theorem digitChar_isDigit (d : Nat) (hd : d < 10) : (digitChar d).isDigit = true := by
  interval_cases d <;> decide

theorem decDigitsAux_spec (fuel : Nat) :
    ∀ n acc, n < fuel →
      parseDigitsAcc acc (decDigitsAux fuel n) =
        acc * 10 ^ (decDigitsAux fuel n).length + n := by
  induction fuel with
  | zero => intro n acc h; omega
  | succ fuel ih =>
    intro n acc h
    by_cases hn : n < 10
    · simp only [decDigitsAux, if_pos hn, parseDigitsAcc, List.foldl, List.length_singleton]
      rw [digitChar_toNat n hn]
      omega
    · have hdiv : n / 10 < fuel := by
        have h1 : n / 10 < n := Nat.div_lt_self (by omega) (by omega)
        omega
      simp only [decDigitsAux, if_neg hn]
      rw [parseDigitsAcc_append]
      have hmod : n % 10 < 10 := Nat.mod_lt n (by omega)
      simp only [parseDigitsAcc, List.foldl]
      rw [digitChar_toNat (n % 10) hmod]
      have hih := ih (n / 10) acc hdiv
      simp only [parseDigitsAcc] at hih
      rw [hih]
      have hlen : (decDigitsAux fuel (n / 10) ++ [digitChar (n % 10)]).length =
          (decDigitsAux fuel (n / 10)).length + 1 := by simp
      rw [hlen, pow_succ]
      have : 10 * (n / 10) + n % 10 = n := Nat.div_add_mod n 10
      ring_nf
      omega

theorem decDigitsAux_all_digits (fuel : Nat) :
    ∀ n, n < fuel → ∀ c ∈ decDigitsAux fuel n, c.isDigit = true := by
  induction fuel with
  | zero => intro n h; omega
  | succ fuel ih =>
    intro n h c hc
    by_cases hn : n < 10
    · simp only [decDigitsAux, if_pos hn, List.mem_singleton] at hc
      exact hc ▸ digitChar_isDigit n hn
    · have hdiv : n / 10 < fuel := by
        have h1 : n / 10 < n := Nat.div_lt_self (by omega) (by omega)
        omega
      simp only [decDigitsAux, if_neg hn, List.mem_append, List.mem_singleton] at hc
      rcases hc with hc | hc
      · exact ih (n / 10) hdiv c hc
      · exact hc ▸ digitChar_isDigit (n % 10) (Nat.mod_lt n (by omega))

theorem takeWhile_of_all {p : Char → Bool} :
    ∀ l : List Char, (∀ c ∈ l, p c = true) → l.takeWhile p = l := by
  intro l h
  induction l with
  | nil => rfl
  | cons c cs ih =>
    have hc : p c = true := h c (List.mem_cons_self c cs)
    simp only [List.takeWhile_cons, hc, if_pos]
    rw [ih (fun x hx => h x (List.mem_cons_of_mem c hx))]

/-- `parseInt(n.toString(), 10)` recovers `n` exactly in this embedding. -/
theorem jsParseIntD_bnToString (n : Nat) : jsParseIntD (bnToString n) = n := by
  unfold jsParseIntD bnToString
  have htl : (String.mk (decDigitsAux (n + 1) n)).toList = decDigitsAux (n + 1) n := rfl
  rw [htl, takeWhile_of_all _ (decDigitsAux_all_digits (n + 1) n (Nat.lt_succ_self n)),
    decDigitsAux_spec (n + 1) n 0 (Nat.lt_succ_self n)]
  simp

/-! ### Structural lemmas -/

theorem tickEvents_append (rpc : Rpc) (l1 l2 : List Account) :
    tickEvents rpc (l1 ++ l2) = tickEvents rpc l1 ++ tickEvents rpc l2 := by
  induction l1 with
  | nil => rfl
  | cons a rest ih => simp [tickEvents, ih]

theorem mainGo_fst (rpc : Rpc) (l : List Account) (s : ServiceState) :
    (BalanceMonService.mainGo rpc l s).1 = s := by
  induction l with
  | nil => rfl
  | cons a rest ih => simp [BalanceMonService.mainGo, ih]

theorem mainGo_snd (rpc : Rpc) (l : List Account) (s : ServiceState) :
    (BalanceMonService.mainGo rpc l s).2 = tickEvents rpc l := by
  induction l with
  | nil => rfl
  | cons a rest ih => simp [BalanceMonService.mainGo, tickEvents, ih]

theorem tickEvents_eq_join (rpc : Rpc) (l : List Account) :
    tickEvents rpc l = (l.map (processAccount rpc)).flatten := by
  induction l with
  | nil => rfl
  | cons a rest ih => simp [tickEvents, ih]

theorem countP_nonceStep_balanceWrite (rpc : Rpc) (a a' : Account) :
    (nonceStep rpc a).countP (isBalanceWriteFor a') = 0 := by
  unfold nonceStep
  split
  · cases hc : rpc.call a.address nonceSelector with
    | ok s =>
      cases hbn : bigNumberFrom s <;>
        simp [hbn, List.countP_cons, isBalanceWriteFor]
    | error e => simp [List.countP_cons, isBalanceWriteFor]
  · rfl

theorem countP_nonceStep_balanceErr (rpc : Rpc) (a : Account) :
    (nonceStep rpc a).countP isBalanceErrEvent = 0 := by
  unfold nonceStep
  split
  · cases hc : rpc.call a.address nonceSelector with
    | ok s =>
      cases hbn : bigNumberFrom s <;>
        simp [hbn, List.countP_cons, isBalanceErrEvent]
    | error e => simp [List.countP_cons, isBalanceErrEvent]
  · rfl

/-- C9: after initialization the account registry is never mutated: one
tick of `main` returns the state it was given, and its events are the
per-account event blocks concatenated in input order. -/
theorem c9_registry_immutable_and_order_stable (rpc : Rpc) (s : ServiceState) :
    (BalanceMonService.main rpc s).1 = s ∧
    (BalanceMonService.main rpc s).2 = tickEvents rpc s.accounts ∧
    tickEvents rpc s.accounts = (s.accounts.map (processAccount rpc)).flatten := by
  refine ⟨?_, ?_, tickEvents_eq_join rpc s.accounts⟩
  · exact mainGo_fst rpc s.accounts s
  · exact mainGo_snd rpc s.accounts s

/-- C2: one tick processes the accounts in list order, and for each
account exactly one of a balance-gauge write labelled with that
account's address and nickname or an error-counter increment labelled
`balances` / `getBalance` happens, the write exactly when the balance
read succeeds. -/
theorem c2_balance_outcome_exactly_one (rpc : Rpc) (accounts : List Account) :
    tickEvents rpc accounts = (accounts.map (processAccount rpc)).flatten ∧
    ∀ a : Account,
      (processAccount rpc a).countP (isBalanceWriteFor a) +
          (processAccount rpc a).countP isBalanceErrEvent = 1 ∧
      ((processAccount rpc a).countP (isBalanceWriteFor a) = 1 ↔
        rpcOk (rpc.getBalance a.address) = true) := by
  refine ⟨tickEvents_eq_join rpc accounts, fun a => ?_⟩
  cases hb : rpc.getBalance a.address with
  | ok b =>
    simp [processAccount, balanceStep, hb, rpcOk, List.countP_append, List.countP_cons,
      isBalanceWriteFor, isBalanceErrEvent,
      countP_nonceStep_balanceWrite, countP_nonceStep_balanceErr]
  | error e =>
    simp [processAccount, balanceStep, hb, rpcOk, List.countP_append, List.countP_cons,
      isBalanceWriteFor, isBalanceErrEvent,
      countP_nonceStep_balanceWrite, countP_nonceStep_balanceErr]

theorem countP_balanceStep_call (rpc : Rpc) (a : Account) :
    (balanceStep rpc a).countP isCallEvent = 0 := by
  cases hb : rpc.getBalance a.address <;>
    simp [balanceStep, hb, List.countP_cons, isCallEvent]

theorem countP_balanceStep_nonceCall (rpc : Rpc) (a a' : Account) :
    (balanceStep rpc a).countP (isNonceCallFor a') = 0 := by
  cases hb : rpc.getBalance a.address <;>
    simp [balanceStep, hb, List.countP_cons, isNonceCallFor]

theorem countP_balanceStep_nonceWrite (rpc : Rpc) (a a' : Account) :
    (balanceStep rpc a).countP (isNonceWriteFor a') = 0 := by
  cases hb : rpc.getBalance a.address <;>
    simp [balanceStep, hb, List.countP_cons, isNonceWriteFor]

theorem countP_balanceStep_nonceErr (rpc : Rpc) (a : Account) :
    (balanceStep rpc a).countP isNonceErrEvent = 0 := by
  cases hb : rpc.getBalance a.address <;>
    simp [balanceStep, hb, List.countP_cons, isNonceErrEvent]

theorem nonceSet_not_mem_balanceStep (rpc : Rpc) (a : Account)
    (addr nick : String) (v : Nat) :
    Event.nonceSet addr nick v ∉ balanceStep rpc a := by
  cases hb : rpc.getBalance a.address <;> simp [balanceStep, hb]

theorem countP_nonceStep_call (rpc : Rpc) (a : Account) :
    (nonceStep rpc a).countP isCallEvent = if truthy a.safe then 1 else 0 := by
  unfold nonceStep
  split
  · cases hc : rpc.call a.address nonceSelector with
    | ok s =>
      cases hbn : bigNumberFrom s <;>
        simp [hbn, List.countP_cons, isCallEvent]
    | error e => simp [List.countP_cons, isCallEvent]
  · rfl

theorem countP_nonceStep_nonceCall_of_truthy (rpc : Rpc) (a : Account)
    (ht : truthy a.safe = true) :
    (nonceStep rpc a).countP (isNonceCallFor a) = 1 := by
  unfold nonceStep
  rw [if_pos ht]
  cases hc : rpc.call a.address nonceSelector with
  | ok s =>
    cases hbn : bigNumberFrom s <;>
      simp [hbn, List.countP_cons, isNonceCallFor]
  | error e => simp [List.countP_cons, isNonceCallFor]

/-- C10: the nonce fetch is gated on JavaScript truthiness of the raw
`safe` field, not on strict equality with `true`: a tick performs the
contract call exactly when `safe` is truthy, the nonbool values
`"false"` and `1` are truthy, the values `false`, `0`, `null` and
`undefined` are falsy, and a record without a `safe` field reads as
`undefined`. -/
theorem c10_truthiness_gates_nonce_fetch (rpc : Rpc) (a : Account) :
    (processAccount rpc a).countP isCallEvent = (if truthy a.safe then 1 else 0) ∧
    truthy (JsValue.str "false") = true ∧
    truthy (JsValue.num 1) = true ∧
    truthy (JsValue.bool false) = false ∧
    truthy (JsValue.num 0) = false ∧
    truthy JsValue.null = false ∧
    truthy JsValue.undefined = false ∧
    JsValue.getField (JsValue.obj [("address", JsValue.str "0xAA")]) "safe" = JsValue.undefined := by
  refine ⟨?_, rfl, rfl, rfl, rfl, rfl, rfl, rfl⟩
  rw [processAccount, List.countP_append, countP_balanceStep_call, countP_nonceStep_call]
  omega

/-- C3: for an account with `safe = true`, one tick issues exactly one
contract call, that call targets the account's address with exactly the
4-byte selector `0xaffed0e0` as call data, exactly one of a nonce-gauge
write labelled with the account's address and nickname or an
error-counter increment labelled `safeNonce` / `getSafeNonce` follows,
the write happens exactly when the fetch succeeds, and the written
value is the returned byte string read as a big-endian unsigned
integer. -/
theorem c3_safe_nonce_fetch (rpc : Rpc) (a : Account) (h : a.safe = JsValue.bool true) :
    (processAccount rpc a).countP isCallEvent = 1 ∧
    (processAccount rpc a).countP (isNonceCallFor a) = 1 ∧
    (processAccount rpc a).countP (isNonceWriteFor a) +
        (processAccount rpc a).countP isNonceErrEvent = 1 ∧
    ((processAccount rpc a).countP (isNonceWriteFor a) = 1 ↔ nonceFetchOk rpc a = true) ∧
    (∀ v : Nat, Event.nonceSet a.address a.nickname v ∈ processAccount rpc a →
      ∃ s : String, rpc.call a.address nonceSelector = Except.ok s ∧
        bigNumberFrom s = some v) := by
  have ht : truthy a.safe = true := by rw [h]; rfl
  refine ⟨?_, ?_, ?_, ?_, ?_⟩
  · rw [processAccount, List.countP_append, countP_balanceStep_call, countP_nonceStep_call,
      if_pos ht]
  · rw [processAccount, List.countP_append, countP_balanceStep_nonceCall,
      countP_nonceStep_nonceCall_of_truthy rpc a ht]
  · rw [processAccount, List.countP_append, List.countP_append,
      countP_balanceStep_nonceWrite, countP_balanceStep_nonceErr]
    unfold nonceStep
    rw [if_pos ht]
    cases hc : rpc.call a.address nonceSelector with
    | ok s =>
      cases hbn : bigNumberFrom s <;>
        simp [hbn, List.countP_cons, isNonceWriteFor, isNonceErrEvent]
    | error e => simp [List.countP_cons, isNonceWriteFor, isNonceErrEvent]
  · rw [processAccount, List.countP_append, countP_balanceStep_nonceWrite]
    unfold nonceStep
    rw [if_pos ht]
    cases hc : rpc.call a.address nonceSelector with
    | ok s =>
      cases hbn : bigNumberFrom s <;>
        simp [hbn, List.countP_cons, isNonceWriteFor, nonceFetchOk, hc]
    | error e => simp [List.countP_cons, isNonceWriteFor, nonceFetchOk, hc]
  · intro v hv
    rw [processAccount, List.mem_append] at hv
    rcases hv with hv | hv
    · exact absurd hv (nonceSet_not_mem_balanceStep rpc a a.address a.nickname v)
    · unfold nonceStep at hv
      rw [if_pos ht] at hv
      cases hc : rpc.call a.address nonceSelector with
      | ok s =>
        rw [hc] at hv
        cases hbn : bigNumberFrom s with
        | some n =>
          simp only [hbn, List.mem_cons, List.not_mem_nil, or_false] at hv
          rcases hv with hv | hv
          · exact absurd hv (by simp)
          · injection hv with h1 h2 h3
            exact ⟨s, rfl, by rw [hbn, h3, jsParseIntD_bnToString]⟩
        | none =>
          simp [hbn] at hv
      | error e =>
        rw [hc] at hv
        simp at hv

/-- C1: a failing balance read for an account aborts nothing: the tick's
trace still contains, in place, the error-counter increment for that
account followed by its full nonce step, and the complete event blocks
of every later account; when the account is safe the nonce fetch still
issues its contract call. -/
theorem c1_balance_failure_isolated (rpc : Rpc) (a : Account) (pre post : List Account)
    (h : rpc.getBalance a.address = Except.error ()) :
    tickEvents rpc (pre ++ a :: post) =
      tickEvents rpc pre ++
        ((Event.rpcGetBalance a.address :: Event.errInc "balances" "getBalance" ::
            nonceStep rpc a) ++ tickEvents rpc post) ∧
    (a.safe = JsValue.bool true →
      (nonceStep rpc a).countP (isNonceCallFor a) = 1) := by
  constructor
  · rw [tickEvents_append]
    have hstep : tickEvents rpc (a :: post) =
        (balanceStep rpc a ++ nonceStep rpc a) ++ tickEvents rpc post := rfl
    rw [hstep]
    have hbal : balanceStep rpc a =
        [Event.rpcGetBalance a.address, Event.errInc "balances" "getBalance"] := by
      simp [balanceStep, h]
    rw [hbal]
    simp
  · intro hs
    exact countP_nonceStep_nonceCall_of_truthy rpc a (by rw [hs]; rfl)

/-! ### Metrics-level lemmas -/

theorem applyEvents_append (m : Metrics) (l1 l2 : List Event) :
    applyEvents m (l1 ++ l2) = applyEvents (applyEvents m l1) l2 := by
  simp [applyEvents, List.foldl_append]

theorem safeNonces_applyEvents_balanceStep (rpc : Rpc) (a : Account) (m : Metrics) :
    (applyEvents m (balanceStep rpc a)).safeNonces = m.safeNonces := by
  cases hb : rpc.getBalance a.address <;>
    simp [balanceStep, hb, applyEvents, List.foldl, applyEvent]

theorem balances_applyEvents_nonceStep (rpc : Rpc) (a : Account) (m : Metrics) :
    (applyEvents m (nonceStep rpc a)).balances = m.balances := by
  unfold nonceStep
  split
  · cases hc : rpc.call a.address nonceSelector with
    | ok s =>
      cases hbn : bigNumberFrom s <;>
        simp [hbn, applyEvents, List.foldl, applyEvent]
    | error e => simp [applyEvents, List.foldl, applyEvent]
  · rfl

theorem balances_applyEvents_balanceStep_fail (rpc : Rpc) (a : Account) (m : Metrics)
    (h : rpcOk (rpc.getBalance a.address) = false) :
    (applyEvents m (balanceStep rpc a)).balances = m.balances := by
  cases hb : rpc.getBalance a.address with
  | ok b =>
    rw [hb] at h
    simp [rpcOk] at h
  | error e =>
    simp [balanceStep, hb, applyEvents, List.foldl, applyEvent]

theorem safeNonces_applyEvents_nonceStep_fail (rpc : Rpc) (a : Account) (m : Metrics)
    (h : nonceFetchOk rpc a = false) :
    (applyEvents m (nonceStep rpc a)).safeNonces = m.safeNonces := by
  unfold nonceStep
  split
  · cases hc : rpc.call a.address nonceSelector with
    | ok s =>
      cases hbn : bigNumberFrom s with
      | some n =>
        rw [nonceFetchOk, hc] at h
        simp [hbn] at h
      | none => simp [hbn, applyEvents, List.foldl, applyEvent]
    | error e => simp [applyEvents, List.foldl, applyEvent]
  · rfl

/-- C5: a failed balance read writes nothing to the balance gauge and a
failed nonce fetch writes nothing to the nonce gauge: over that
account's whole event block the gauge keeps, at every label pair, the
value it held before. -/
theorem c5_failure_leaves_gauge_unchanged (rpc : Rpc) (a : Account) (m : Metrics) :
    (rpcOk (rpc.getBalance a.address) = false →
      ∀ x y, (applyEvents m (processAccount rpc a)).balances x y = m.balances x y) ∧
    (nonceFetchOk rpc a = false →
      ∀ x y, (applyEvents m (processAccount rpc a)).safeNonces x y = m.safeNonces x y) := by
  constructor
  · intro h x y
    rw [processAccount, applyEvents_append, balances_applyEvents_nonceStep,
      balances_applyEvents_balanceStep_fail rpc a m h]
  · intro h x y
    rw [processAccount, applyEvents_append, safeNonces_applyEvents_nonceStep_fail rpc a _ h,
      safeNonces_applyEvents_balanceStep]

/-- C5 witness: with every RPC operation failing, a tick over the safe
account leaves both gauges at their initial (absent) state. -/
theorem c5_witness :
    (applyEvents mZero (processAccount rpcAllFail accBob)).balances "0xBB" "bob" =
      mZero.balances "0xBB" "bob" ∧
    (applyEvents mZero (processAccount rpcAllFail accBob)).safeNonces "0xBB" "bob" =
      mZero.safeNonces "0xBB" "bob" := by
  have h := c5_failure_leaves_gauge_unchanged rpcAllFail accBob mZero
  exact ⟨h.1 rfl "0xBB" "bob", h.2 rfl "0xBB" "bob"⟩

/-- C6: for an account whose `safe` field is `false`, a tick issues no
contract call, writes nothing to the nonce gauge labelled with that
account's address and nickname, and leaves the nonce gauge unchanged at
every label pair. -/
theorem c6_unsafe_skips_nonce_step (rpc : Rpc) (a : Account) (h : a.safe = JsValue.bool false) :
    (processAccount rpc a).countP isCallEvent = 0 ∧
    (processAccount rpc a).countP (isNonceWriteFor a) = 0 ∧
    ∀ (m : Metrics) (x y : String),
      (applyEvents m (processAccount rpc a)).safeNonces x y = m.safeNonces x y := by
  have ht : truthy a.safe = false := by rw [h]; rfl
  have hstep : nonceStep rpc a = [] := by
    unfold nonceStep
    rw [ht]
    rfl
  refine ⟨?_, ?_, ?_⟩
  · rw [processAccount, List.countP_append, countP_balanceStep_call, hstep]
    rfl
  · rw [processAccount, List.countP_append, countP_balanceStep_nonceWrite, hstep]
    rfl
  · intro m x y
    rw [processAccount, hstep, List.append_nil, safeNonces_applyEvents_balanceStep]

/-- C6 witness: the non-safe account produces no contract call and no
nonce-gauge write, and the nonce gauge stays empty. -/
theorem c6_witness :
    (processAccount rpcBal18 accAlice).countP isCallEvent = 0 ∧
    (processAccount rpcBal18 accAlice).countP (isNonceWriteFor accAlice) = 0 ∧
    (applyEvents mZero (processAccount rpcBal18 accAlice)).safeNonces "0xAA" "alice" =
      mZero.safeNonces "0xAA" "alice" := by
  have h := c6_unsafe_skips_nonce_step rpcBal18 accAlice rfl
  exact ⟨h.1, h.2.1, h.2.2 mZero "0xAA" "alice"⟩

/-- C7: a successful balance read writes the gauge labelled with the
account's address and nickname with `parseInt(balance.toString(), 10)`,
and in this exact-integer embedding that coercion returns the balance
itself, so a read of 10^18 wei sets the gauge to 10^18. -/
theorem c7_balance_value_coercion (rpc : Rpc) (a : Account) (b : Nat) (m : Metrics)
    (h : rpc.getBalance a.address = Except.ok b) :
    (applyEvents m (balanceStep rpc a)).balances a.address a.nickname =
      some (jsParseIntD (bnToString b)) ∧
    jsParseIntD (bnToString b) = b := by
  refine ⟨?_, jsParseIntD_bnToString b⟩
  simp [balanceStep, h, applyEvents, List.foldl, applyEvent]

/-- C7 witness: a balance read of 1000000000000000000 wei for the
account `(0xAA, alice)` sets the balance gauge for that label pair to
1000000000000000000. -/
theorem c7_witness :
    (applyEvents mZero (balanceStep rpcBal18 accAlice)).balances "0xAA" "alice" =
      some 1000000000000000000 := by
  have h := c7_balance_value_coercion rpcBal18 accAlice 1000000000000000000 mZero rfl
  exact h.2 ▸ h.1

/-- C8: over the single safe account `(0xBB, bob)`, if the balance read
throws and the contract call returns `0x05`, one tick adds exactly one
to the error counter labelled `balances` / `getBalance` and sets the
nonce gauge for `(0xBB, bob)` to 5. -/
theorem c8_bob_scenario (rpc : Rpc) (m : Metrics)
    (hb : rpc.getBalance "0xBB" = Except.error ())
    (hc : rpc.call "0xBB" nonceSelector = Except.ok "0x05") :
    (applyEvents m (tickEvents rpc [accBob])).unexpectedRpcErrors "balances" "getBalance" =
      m.unexpectedRpcErrors "balances" "getBalance" + 1 ∧
    (applyEvents m (tickEvents rpc [accBob])).safeNonces "0xBB" "bob" = some 5 := by
  have hbn : bigNumberFrom "0x05" = some 5 := rfl
  have hv : jsParseIntD (bnToString 5) = 5 := rfl
  have hev : tickEvents rpc [accBob] =
      [Event.rpcGetBalance "0xBB", Event.errInc "balances" "getBalance",
       Event.rpcCall "0xBB" nonceSelector, Event.nonceSet "0xBB" "bob" 5] := by
    show processAccount rpc accBob ++ [] = _
    rw [List.append_nil, processAccount]
    have h1 : balanceStep rpc accBob =
        [Event.rpcGetBalance "0xBB", Event.errInc "balances" "getBalance"] := by
      simp [balanceStep, accBob, hb]
    have h2 : nonceStep rpc accBob =
        [Event.rpcCall "0xBB" nonceSelector, Event.nonceSet "0xBB" "bob" 5] := by
      unfold nonceStep
      rw [if_pos (by rfl)]
      show Event.rpcCall accBob.address nonceSelector ::
          (match rpc.call accBob.address nonceSelector with
           | .ok s =>
             match bigNumberFrom s with
             | some n => [Event.nonceSet accBob.address accBob.nickname
                 (jsParseIntD (bnToString n))]
             | none => [Event.errInc "safeNonce" "getSafeNonce"]
           | .error _ => [Event.errInc "safeNonce" "getSafeNonce"]) = _
      have hcall : rpc.call accBob.address nonceSelector = Except.ok "0x05" := hc
      rw [hcall]
      simp [hbn, hv, accBob]
    rw [h1, h2]
    rfl
  rw [hev]
  constructor
  · simp [applyEvents, List.foldl, applyEvent]
  · simp [applyEvents, List.foldl, applyEvent]

/-- C8 witness: the scenario run from the empty metrics state yields an
error count of 1 for `balances` / `getBalance` and a nonce gauge of 5
for `(0xBB, bob)`. -/
theorem c8_witness :
    (applyEvents mZero (tickEvents rpcBalFail [accBob])).unexpectedRpcErrors
        "balances" "getBalance" = 1 ∧
    (applyEvents mZero (tickEvents rpcBalFail [accBob])).safeNonces "0xBB" "bob" = some 5 := by
  have h := c8_bob_scenario rpcBalFail mZero rfl rfl
  exact ⟨h.1, h.2⟩

/-- C1 witness: with every balance read failing, the tick over
`[bob, carol]` still contains bob's full nonce step in place and
carol's complete event block, and bob's nonce fetch still issues its
single contract call. -/
theorem c1_witness :
    tickEvents rpcBalFail ([] ++ accBob :: [accCarol]) =
      tickEvents rpcBalFail [] ++
        ((Event.rpcGetBalance accBob.address ::
            Event.errInc "balances" "getBalance" :: nonceStep rpcBalFail accBob) ++
          tickEvents rpcBalFail [accCarol]) ∧
    (nonceStep rpcBalFail accBob).countP (isNonceCallFor accBob) = 1 := by
  have h := c1_balance_failure_isolated rpcBalFail accBob [] [accCarol] rfl
  exact ⟨h.1, h.2 rfl⟩

/-- C3 witness: for the safe account `(0xBB, bob)` with the contract
call returning `0x05`, the tick issues exactly one contract call, it
carries the selector, and the returned data reads back as the written
nonce value 5. -/
theorem c3_witness :
    (processAccount rpcNonceOk accBob).countP isCallEvent = 1 ∧
    (processAccount rpcNonceOk accBob).countP (isNonceCallFor accBob) = 1 ∧
    (processAccount rpcNonceOk accBob).countP (isNonceWriteFor accBob) +
        (processAccount rpcNonceOk accBob).countP isNonceErrEvent = 1 ∧
    (∃ s : String, rpcNonceOk.call accBob.address nonceSelector = Except.ok s ∧
      bigNumberFrom s = some 5) := by
  have h := c3_safe_nonce_fetch rpcNonceOk accBob rfl
  refine ⟨h.1, h.2.1, h.2.2.1, h.2.2.2.2 5 ?_⟩
  decide

/-- C4 counterexample: the string `[\x7b\x7d]` is a malformed accounts
configuration in the claim's sense — a valid JSON array whose single
record misses every required field — yet `init` succeeds on it, storing
the unvalidated value, so initialization does not fail and the service
proceeds to scheduling. -/
theorem c4_counterexample :
    accountsConfigMalformed (JsValue.arr [JsValue.obj []]) = true ∧
    BalanceMonService.init "[\x7b\x7d]" = Except.ok (JsValue.arr [JsValue.obj []]) := by
  exact ⟨rfl, rfl⟩

/-- C4 amended: initialization fails exactly when the accounts string
is not syntactically valid JSON; `init` performs no shape validation,
so any successfully parsed value — a non-array, or an array with
records missing required fields — is stored as is and initialization
succeeds. -/
theorem c4_init_fails_only_on_invalid_json (s : String) :
    (BalanceMonService.initOk s = (jsonParse s).isSome) ∧
    (∀ v : JsValue, jsonParse s = some v → BalanceMonService.init s = Except.ok v) := by
  constructor
  · unfold BalanceMonService.initOk BalanceMonService.init
    cases h : jsonParse s <;> simp [h]
  · intro v hv
    unfold BalanceMonService.init
    rw [hv]

/-- C4 amended witness: on the malformed-but-valid-JSON input the parse
succeeds and `init` returns the parsed value unchanged; on a
syntactically invalid input `init` fails. -/
theorem c4_init_scope_witness :
    (BalanceMonService.initOk "[\x7b\x7d]" = (jsonParse "[\x7b\x7d]").isSome) ∧
    BalanceMonService.init "[\x7b\x7d]" = Except.ok (JsValue.arr [JsValue.obj []]) ∧
    (BalanceMonService.initOk "[" = (jsonParse "[").isSome) := by
  exact ⟨(c4_init_fails_only_on_invalid_json "[\x7b\x7d]").1,
    (c4_init_fails_only_on_invalid_json "[\x7b\x7d]").2 (JsValue.arr [JsValue.obj []]) rfl,
    (c4_init_fails_only_on_invalid_json "[").1⟩
